import Mathlib

/-!
Verification development for the mathfp interpreter pipeline
(src/token.rs, src/ast.rs, src/parser.rs, src/runtime.rs, src/eval.rs).

Modelling conventions:
* Rust `f64` is modelled by `ℚ`.  All arithmetic claims are stated
  symbolically (the result is `l + r`, `l / r`, ...), so only the control
  flow of the interpreter is asserted, not floating-point rounding.
  Division is total on `ℚ` (`x / 0 = 0`); the code performs the native
  float division with no zero check, which the model mirrors by applying
  the division operator unconditionally.
* Source text is modelled as `List Char`.  The Rust scanner mixes
  character indices (`chars().nth`) with byte slices (`&source[a..b]`);
  on ASCII input these coincide, and the model uses character indices
  throughout.
* Rust panics (`todo!`, `unreachable!`, out-of-bounds slicing) are a
  distinct outcome constructor (`fatal` / `crash`), separate from the
  `Result::Err` error channel.
-/

/-- Token from src/token.rs: kind, lexeme, line, column. -/
inductive TokenType where
  | Plus
  | Minus
  | Star
  | Slash
  | LessThan
  | GreaterThan
  | LeftParen
  | RightParen
  | Identifier (name : String)
  | Number (value : ℚ)
  | String (value : String)
  | If
  | Then
  | Else
  | MapsTo
  | Binding
  | EndStmt
  | Eof
  deriving DecidableEq, Repr

/-- Token structure from src/token.rs. -/
structure Token where
  kind : TokenType
  lexeme : String
  line : Nat
  column : Nat
  deriving DecidableEq, Repr

/-- LiteralValue from src/ast.rs. -/
inductive LiteralValue where
  | Number (value : ℚ)
  | String (value : String)
  | Boolean (value : Bool)
  | Nil
  deriving DecidableEq, Repr

/-- Expr from src/ast.rs (Box-ed children become plain subterms). -/
inductive Expr where
  | Program (statements : List Expr)
  | Binary (left : Expr) (op : Token) (right : Expr)
  | Unary (op : Token) (right : Expr)
  | Grouping (inner : Expr)
  | Variable (name : String)
  | Binding (name : String) (expr : Expr)
  | Literal (value : LiteralValue)
  | FunctionDef (param : String) (body : Expr)
  | FunctionCall (func : Expr) (arg : Expr)
  | If (cond_expr : Expr) (then_expr : Expr) (else_expr : Expr)
  | Empty
  deriving Repr

/-- RuntimeValue from src/runtime.rs. -/
inductive RuntimeValue where
  | Number (value : ℚ)
  | String (value : String)
  | Boolean (value : Bool)
  | Function (arg : Expr) (body : Expr)
  | Nil
  deriving Repr

/-- Binding entry from src/runtime.rs: a runtime value plus a constant flag. -/
structure EnvBinding where
  value : RuntimeValue
  is_constant : Bool
  deriving Repr

/-- Environment from src/runtime.rs.  The Rust `HashMap<String, Binding>` is
modelled as an association list whose `insert` replaces an existing key in
place (key order is immaterial to every claim). -/
structure Environment where
  bindings : List (String × EnvBinding)
  deriving Repr

/-- Insert with HashMap `insert` semantics: replace the entry when the key is
present, append otherwise. -/
def insertEntry : List (String × EnvBinding) → String → EnvBinding → List (String × EnvBinding)
  | [], name, b => [(name, b)]
  | (k, v) :: rest, name, b =>
      if k = name then (name, b) :: rest else (k, v) :: insertEntry rest name b

/-- Lookup of a key in the binding map (models `HashMap::get` / indexing). -/
def lookupEntry : List (String × EnvBinding) → String → Option EnvBinding
  | [], _ => none
  | (k, v) :: rest, name => if k = name then some v else lookupEntry rest name

/-- Environment::bind from src/runtime.rs.  The Rust method mutates `&mut
self` and returns `Result<(), String>`; the model returns the error message
(if any) together with the environment after the call, which is unchanged on
failure. -/
def Environment.bind (env : Environment) (name : String) (value : RuntimeValue) :
    Option String × Environment :=
  match lookupEntry env.bindings name with
  | some entry =>
      if entry.is_constant then
        (some ("Cannot modify variable '" ++ name ++ "'"), env)
      else
        (none, ⟨insertEntry env.bindings name ⟨value, false⟩⟩)
  | none => (none, ⟨insertEntry env.bindings name ⟨value, false⟩⟩)

/-- Environment::bind_const from src/runtime.rs. -/
def Environment.bind_const (env : Environment) (name : String) (value : RuntimeValue) :
    Environment :=
  ⟨insertEntry env.bindings name ⟨value, true⟩⟩

/-- Environment::resolve from src/runtime.rs (the caller clones, so the model
returns the value itself). -/
def Environment.resolve (env : Environment) (name : String) : Option RuntimeValue :=
  (lookupEntry env.bindings name).map (·.value)

/-- Environment::new from src/runtime.rs: empty map seeded with the three
built-in constants. -/
def Environment.new : Environment :=
  (((⟨[]⟩ : Environment).bind_const "nil" .Nil).bind_const
      "true" (.Boolean true)).bind_const "false" (.Boolean false)

/-- Outcome of `evaluate`: `ok` carries the value and the environment after
the call (the Rust function mutates `&mut Environment`), `err` is
`Result::Err`, and `fatal` models a panic (`todo!` / `unreachable!`). -/
inductive EvalOut where
  | ok (value : RuntimeValue) (env : Environment)
  | err (msg : String)
  | fatal (msg : String)
  deriving Repr

/-- Numeric view of an operand in the Binary arm of `evaluate`
(src/eval.rs): Number is used as-is, Boolean is coerced via
`(cond as i64) as f64` (`true → 1.0`, `false → 0.0`), anything else is
rejected by the caller. -/
def numValue : RuntimeValue → Option ℚ
  | .Number value => some value
  | .Boolean cond => some (if cond then 1 else 0)
  | _ => none

mutual
/-- evaluate from src/eval.rs.  Arms appear in source order; the final
catch-all models the `todo!` panic, and the Binary operator catch-all models
the `unreachable!` panic. -/
def evaluate : Expr → Environment → EvalOut
  | .Program statements, env => evalStatements statements env .Nil
  | .Literal literal, env =>
      match literal with
      | .Number n => .ok (.Number n) env
      | .String msg => .ok (.String msg) env
      | _ => .fatal "Handle other literals"
  | .Binary left op right, env =>
      match evaluate left env with
      | .ok lval env1 =>
          match numValue lval with
          | some l =>
              match evaluate right env1 with
              | .ok rval env2 =>
                  match numValue rval with
                  | some r =>
                      match op.kind with
                      | .Plus => .ok (.Number (l + r)) env2
                      | .Minus => .ok (.Number (l - r)) env2
                      | .Star => .ok (.Number (l * r)) env2
                      | .Slash => .ok (.Number (l / r)) env2
                      | _ => .fatal "unreachable: binary operator"
                  | none => .err "Operands for binary expressions must be numbers"
              | e => e
          | none => .err "Operands for binary expressions must be numbers"
      | e => e
  | .Grouping inner, env => evaluate inner env
  | .Binding name rhs, env =>
      match evaluate rhs env with
      | .ok value env1 =>
          match env1.bind name value with
          | (some msg, _) => .err msg
          | (none, env2) => .ok .Nil env2
      | e => e
  | .Variable name, env =>
      match env.resolve name with
      | some value => .ok value env
      | none => .err ("Name '" ++ name ++ "' is not defined")
  | _, _ => .fatal "Handle other expressions"

/-- Loop body of the Program arm of `evaluate` (src/eval.rs): `result`
starts at Nil and is overwritten by each statement in order. -/
def evalStatements : List Expr → Environment → RuntimeValue → EvalOut
  | [], env, result => .ok result env
  | stmt :: rest, env, _ =>
      match evaluate stmt env with
      | .ok value env1 => evalStatements rest env1 value
      | e => e
end

/-- Scanner state from src/token.rs (source text as a character list). -/
structure Scanner where
  source : List Char
  start : Nat
  current : Nat
  line : Nat
  column : Nat
  deriving Repr, DecidableEq

/-- Scanner::new from src/token.rs. -/
def Scanner.new (source : List Char) : Scanner :=
  ⟨source, 0, 0, 1, 0⟩

/-- Scanner::make_token from src/token.rs (the Ok wrapper of the Rust
signature is incidental and dropped). -/
def Scanner.make_token (s : Scanner) (kind : TokenType) (lexeme : String) : Token :=
  ⟨kind, lexeme, s.line, s.column⟩

/-- Scanner::advance from src/token.rs. -/
def Scanner.advance (s : Scanner) : Scanner :=
  {s with current := s.current + 1}

/-- Scanner::advance_by from src/token.rs. -/
def Scanner.advance_by (s : Scanner) (amount : Nat) : Scanner :=
  {s with current := s.current + amount}

/-- Outcome of one Scanner::scan_token call: a token, a lexical error
message (each with the scanner state after the call, since the Rust
methods mutate `&mut self`), or a panic (`crash`). -/
inductive ScanStep where
  | tok (t : Token) (s : Scanner)
  | err (msg : String) (s : Scanner)
  | crash (msg : String)
  deriving Repr, DecidableEq

/-- Position prefix `[Line {}, Col {}] ` used by the scanner's error
messages. -/
def posPrefix (line column : Nat) : String :=
  "[Line " ++ toString line ++ ", Col " ++ toString column ++ "] "

/-- Digit-string value, most significant digit first. -/
def digitsToNat (cs : List Char) : Nat :=
  cs.foldl (fun acc c => 10 * acc + (c.toNat - ('0').toNat)) 0

/-- Decimal value of a numeric lexeme (digits with at most one dot),
exactly in ℚ; the f64 rounding of the Rust code is abstracted away. -/
def decimalValue (cs : List Char) : ℚ :=
  let intPart := cs.takeWhile (· ≠ '.')
  let fracPart := (cs.dropWhile (· ≠ '.')).drop 1
  if fracPart = [] then (digitsToNat intPart : ℚ)
  else (digitsToNat intPart : ℚ) + (digitsToNat fracPart : ℚ) / (10 : ℚ) ^ fracPart.length

/-- Modelled subset of Rust `str::parse::<f64>` restricted to the lexemes
Scanner::number can produce (runs of ASCII digits and dots): the parse
succeeds iff the lexeme contains at least one digit and at most one dot
(so `5.`, `.5` parse and `.`, `1.2.3` fail, as in Rust). -/
def parseNumberLexeme (cs : List Char) : Option ℚ :=
  if cs.any (·.isDigit) ∧ cs.count '.' ≤ 1 then some (decimalValue cs)
  else none

/-- Scanner::number from src/token.rs: consume a maximal run of digits and
dots (Rust's `is_numeric` agrees with `isDigit` on ASCII), then parse the
lexeme; a failed parse reports the Rust `ParseFloatError` display text. -/
def Scanner.number (s : Scanner) : ScanStep :=
  let run := (s.source.drop s.current).takeWhile (fun c => c.isDigit || c = '.')
  let s' := {s with current := s.current + run.length}
  let lexeme : List Char := (s'.source.drop s'.start).take (s'.current - s'.start)
  match parseNumberLexeme lexeme with
  | some value => .tok (s'.make_token (.Number value) ⟨lexeme⟩) s'
  | none =>
      .err (posPrefix s'.line s'.column ++ "Failed to parse '" ++ (⟨lexeme⟩ : String) ++
        "' as a number: invalid float literal") s'

/-- Scanner::identifier from src/token.rs: consume a maximal run of
alphanumerics and underscores, then classify keywords (Rust's
`is_alphanumeric` agrees with `isAlphanum` on ASCII). -/
def Scanner.identifier (s : Scanner) : ScanStep :=
  let run := (s.source.drop s.current).takeWhile (fun c => c.isAlphanum || c = '_')
  let s' := {s with current := s.current + run.length}
  let lexeme : String := ⟨(s'.source.drop s'.start).take (s'.current - s'.start)⟩
  if lexeme = "if" then .tok (s'.make_token .If lexeme) s'
  else if lexeme = "then" then .tok (s'.make_token .Then lexeme) s'
  else if lexeme = "else" then .tok (s'.make_token .Else lexeme) s'
  else .tok (s'.make_token (.Identifier lexeme) lexeme) s'

/-- Scanner::maps_to from src/token.rs.  The Rust method slices
`source[start..current + 3]` with no bounds check; when fewer than two
characters follow the `|` this byte slice is out of range and the program
panics, modelled by `crash`. -/
def Scanner.maps_to (s : Scanner) : ScanStep :=
  if s.current + 3 ≤ s.source.length then
    let lexeme := (s.source.drop s.start).take (s.current + 3 - s.start)
    if lexeme = ['|', '-', '>'] then
      let s' := s.advance_by 3
      .tok (s'.make_token .MapsTo ("|->")) s'
    else
      .err (posPrefix s.line s.column ++ "Expected a |-> (MapsTo) symbol") s.advance
  else
    .crash "index out of bounds in Scanner::maps_to"

/-- Scanner::binding from src/token.rs.  Slices `source[start..current + 2]`
with no bounds check; a `:` as the last character makes the slice out of
range and the program panics (`crash`). -/
def Scanner.binding (s : Scanner) : ScanStep :=
  if s.current + 2 ≤ s.source.length then
    let symbol := (s.source.drop s.start).take (s.current + 2 - s.start)
    if symbol = [':', '='] then
      let s' := s.advance_by 2
      .tok (s'.make_token .Binding (":=")) s'
    else
      .err (posPrefix s.line s.column ++ "Expected a := (Binding) symbol") s.advance
  else
    .crash "index out of bounds in Scanner::binding"

/-- Loop inside Scanner::string (src/token.rs): advance until just past a
closing quote; the Bool records whether the string was terminated.  The
fuel argument makes the recursion structural; `none` (exhaustion) never
occurs for the fuel the caller supplies, since every iteration advances
the cursor. -/
def consumeString : Nat → Scanner → Option (Scanner × Bool)
  | 0, _ => none
  | fuel + 1, s =>
      match s.source[s.current]? with
      | none => some (s, false)
      | some ch =>
          if ch = '"' then some (s.advance, true) else consumeString fuel s.advance

/-- Scanner::string from src/token.rs. -/
def Scanner.string (s : Scanner) : ScanStep :=
  let s1 := s.advance
  match consumeString (s1.source.length + 1) s1 with
  | some (s2, true) =>
      let lexeme : String := ⟨(s2.source.drop (s2.start + 1)).take (s2.current - 1 - (s2.start + 1))⟩
      .tok (s2.make_token (.String lexeme) lexeme) s2
  | some (s2, false) =>
      .err (posPrefix s2.line s2.column ++ "Unterminated string literal") s2
  | none => .crash "model fuel exhausted"

/-- Scanner::scan_token from src/token.rs: set `start`, read the current
character (end of input yields the Eof token), bump the column once, then
dispatch in source order.  Whitespace is skipped by the recursive call.
The fuel argument makes the recursion structural; exhaustion (`crash
"model fuel exhausted"`) never occurs for the fuel the callers supply,
since every skipped character advances the cursor. -/
def Scanner.scan_token : Nat → Scanner → ScanStep
  | 0, _ => .crash "model fuel exhausted"
  | fuel + 1, s =>
  let s0 : Scanner := {s with start := s.current}
  match s0.source[s0.current]? with
  | none => .tok (s0.make_token .Eof ("")) s0
  | some ch =>
      let s1 : Scanner := {s0 with column := s0.column + 1}
      if ch = '+' then .tok (s1.advance.make_token .Plus ("+")) s1.advance
      else if ch = '-' then .tok (s1.advance.make_token .Minus ("-")) s1.advance
      else if ch = '*' then .tok (s1.advance.make_token .Star ("*")) s1.advance
      else if ch = '/' then .tok (s1.advance.make_token .Slash ("/")) s1.advance
      else if ch = '<' then .tok (s1.advance.make_token .LessThan ("<")) s1.advance
      else if ch = '>' then .tok (s1.advance.make_token .GreaterThan (">")) s1.advance
      else if ch = '(' then .tok (s1.advance.make_token .LeftParen ("(")) s1.advance
      else if ch = ')' then .tok (s1.advance.make_token .RightParen (")")) s1.advance
      else if ch = '|' then s1.maps_to
      else if ch = ':' then s1.binding
      else if ch = '"' then s1.string
      else if ch = '\n' ∨ ch = ';' then
        let s2 := s1.advance
        if ch = '\n' then
          let s3 : Scanner := {s2 with line := s2.line + 1, column := 1}
          .tok (s3.make_token .EndStmt ("\n")) s3
        else
          .tok (s2.make_token .EndStmt (";")) s2
      else if ch = ' ' ∨ ch = '\r' ∨ ch = '\t' then
        Scanner.scan_token fuel s1.advance
      else if ch.isDigit ∨ ch = '.' then s1.number
      else if ch.isAlpha then s1.identifier
      else
        .err (posPrefix s1.line s1.column ++ "Unexpected character: " ++ toString ch) s1.advance

/-- Result of Scanner::scan: the token list, the aggregated lexical
errors, or a panic. -/
inductive ScanResult where
  | ok (tokens : List Token)
  | err (errors : List String)
  | crash (msg : String)
  deriving Repr, DecidableEq

/-- Loop of Scanner::scan (src/token.rs): push tokens, break after pushing
the Eof token, collect error messages, then return the errors if any
occurred and the token list otherwise.  The fuel argument makes the
recursion structural; `none` (fuel exhaustion) is unreachable for the fuel
supplied by `Scanner.scan`. -/
def scanAux : Nat → Scanner → List Token → List String → Option ScanResult
  | 0, _, _, _ => none
  | fuel + 1, s, tokens, errors =>
      match Scanner.scan_token (s.source.length + 1) s with
      | .tok t s' =>
          if t.kind = .Eof then
            some (if errors = [] then .ok (tokens ++ [t]) else .err errors)
          else scanAux fuel s' (tokens ++ [t]) errors
      | .err msg s' => scanAux fuel s' tokens (errors ++ [msg])
      | .crash msg => some (.crash msg)

/-- Scanner::scan from src/token.rs. -/
def Scanner.scan (s : Scanner) : ScanResult :=
  match scanAux (s.source.length + 1) s [] [] with
  | some r => r
  | none => .crash "out of fuel"

/-- Whole-pipeline entry: scan a source text (Scanner::new + Scanner::scan,
as the driver in src/main.rs composes them). -/
def scan (source : List Char) : ScanResult :=
  (Scanner.new source).scan

/-- Parser state from src/parser.rs. -/
structure Parser where
  tokens : List Token
  current : Nat
  deriving Repr

/-- Parser::new from src/parser.rs. -/
def Parser.new (tokens : List Token) : Parser :=
  ⟨tokens, 0⟩

/-- Parser::current from src/parser.rs (named `currentTok` because the
field `current` already takes the Rust method's name in Lean). -/
def Parser.currentTok (p : Parser) : Option Token :=
  p.tokens[p.current]?

/-- Parser::current_kind from src/parser.rs. -/
def Parser.current_kind (p : Parser) : Option TokenType :=
  (p.tokens[p.current]?).map (·.kind)

/-- Parser::lookahead_kind from src/parser.rs. -/
def Parser.lookahead_kind (p : Parser) : Option TokenType :=
  (p.tokens[p.current + 1]?).map (·.kind)

/-- Parser::advance from src/parser.rs. -/
def Parser.advance (p : Parser) : Parser :=
  {p with current := p.current + 1}

/-- Parser::make_error from src/parser.rs: prefix the message with the
current token's position (an Eof token at line 1, column 1 when past the
end).  The Rust method wraps the string in `Err`; the model returns the
string and the callers build the error result. -/
def Parser.make_error (p : Parser) (message : String) : String :=
  let token := (p.tokens[p.current]?).getD ⟨.Eof, "", 1, 1⟩
  posPrefix token.line token.column ++ message

/-- Parser::is_at_end from src/parser.rs. -/
def Parser.is_at_end (p : Parser) : Bool :=
  match p.currentTok with
  | some token => token.kind = .Eof
  | none => true

/-- Parser::synchronise from src/parser.rs: advance until a statement
terminator or end of input.  The fuel argument makes the while-loop
structural; exhaustion never occurs for the fuel the caller supplies,
since every iteration advances the cursor. -/
def Parser.synchronise : Nat → Parser → Parser
  | 0, p => p
  | fuel + 1, p =>
      match p.current_kind with
      | some kind =>
          match kind with
          | .EndStmt | .Eof => p
          | _ => Parser.synchronise fuel p.advance
      | none => p

/-- Debug ({:?}) rendering of a TokenType, as interpolated into parser
error messages by `format!("... {:?}", kind)`.  The Number payload is
rendered in Rust's f64 Debug format for integral values (the only values
any claim exercises); non-integral payloads fall back to the ℚ rendering. -/
def kindDebug : TokenType → String
  | .Plus => "Plus"
  | .Minus => "Minus"
  | .Star => "Star"
  | .Slash => "Slash"
  | .LessThan => "LessThan"
  | .GreaterThan => "GreaterThan"
  | .LeftParen => "LeftParen"
  | .RightParen => "RightParen"
  | .Identifier name => "Identifier(\"" ++ name ++ "\")"
  | .Number value =>
      "Number(" ++ (if value.den = 1 then toString value.num ++ ".0" else toString value) ++ ")"
  | .String value => "String(\"" ++ value ++ "\")"
  | .If => "If"
  | .Then => "Then"
  | .Else => "Else"
  | .MapsTo => "MapsTo"
  | .Binding => "Binding"
  | .EndStmt => "EndStmt"
  | .Eof => "Eof"

/-- Outcome of one parser production: an expression or an error, each with
the parser state after the call, or a panic (`unreachable!`) modelled by
`fatal` (fuel exhaustion also lands in `fatal` and never occurs for the
fuel chosen by `Parser.parse`). -/
inductive PRes where
  | ok (e : Expr) (p : Parser)
  | err (msg : String) (p : Parser)
  | fatal (msg : String)
  deriving Repr

/-- Parser::empty_expr from src/parser.rs: consume the terminator and
yield Empty. -/
def Parser.empty_expr (p : Parser) : PRes :=
  .ok .Empty p.advance

mutual
/-- Parser::expression from src/parser.rs.  The `Some(Eof)` arm is the
Rust `unreachable!()`. -/
def Parser.expression : Nat → Parser → PRes
  | 0, _ => .fatal "parser out of fuel"
  | fuel + 1, p =>
      match p.current_kind with
      | some .EndStmt => p.empty_expr
      | some .Eof => .fatal "internal error: entered unreachable code"
      | some _ =>
          match p.lookahead_kind with
          | some .Binding => Parser.binding fuel p
          | _ => Parser.binary_expr fuel p
      | none => .err (p.make_error "Expected an expression") p

/-- Parser::binding from src/parser.rs: `IDENTIFIER := expression`. -/
def Parser.binding : Nat → Parser → PRes
  | 0, _ => .fatal "parser out of fuel"
  | fuel + 1, p =>
      match Parser.primary fuel p with
      | .ok (.Variable name) p1 =>
          (match p1.current_kind with
           | some .Binding =>
               (match Parser.expression fuel p1.advance with
                | .ok e p2 => .ok (.Binding name e) p2
                | r => r)
           | some kind =>
               .err (p1.make_error ("Expected a binding expression, found " ++ kindDebug kind)) p1
           | none => .err (p1.make_error "Expected an expression") p1)
      | .ok _ p1 => .err (p1.make_error "Expected an identifier to bind a value") p1
      | r => r

/-- Parser::binary_expr from src/parser.rs: a term followed by the
additive while-loop (`binaryLoop`). -/
def Parser.binary_expr : Nat → Parser → PRes
  | 0, _ => .fatal "parser out of fuel"
  | fuel + 1, p =>
      match Parser.term fuel p with
      | .ok left p1 => Parser.binaryLoop fuel left p1
      | r => r

/-- While-loop of Parser::binary_expr: fold further `+`/`-` terms onto
`left`, left-associatively. -/
def Parser.binaryLoop : Nat → Expr → Parser → PRes
  | 0, _, _ => .fatal "parser out of fuel"
  | fuel + 1, left, p =>
      match p.current_kind with
      | some .Plus | some .Minus =>
          (match p.currentTok with
           | some op =>
               (match Parser.term fuel p.advance with
                | .ok right p1 => Parser.binaryLoop fuel (.Binary left op right) p1
                | r => r)
           | none => .err (p.make_error "Expected a binary operator") p)
      | _ => .ok left p

/-- Parser::term from src/parser.rs: a factor followed by the
multiplicative while-loop (`termLoop`). -/
def Parser.term : Nat → Parser → PRes
  | 0, _ => .fatal "parser out of fuel"
  | fuel + 1, p =>
      match Parser.factor fuel p with
      | .ok left p1 => Parser.termLoop fuel left p1
      | r => r

/-- While-loop of Parser::term: fold further `*`/`/` factors onto `left`,
left-associatively. -/
def Parser.termLoop : Nat → Expr → Parser → PRes
  | 0, _, _ => .fatal "parser out of fuel"
  | fuel + 1, left, p =>
      match p.current_kind with
      | some .Star | some .Slash =>
          (match p.currentTok with
           | some op =>
               (match Parser.factor fuel p.advance with
                | .ok right p1 => Parser.termLoop fuel (.Binary left op right) p1
                | r => r)
           | none => .err (p.make_error "Expected a binary operator") p)
      | _ => .ok left p

/-- Parser::factor from src/parser.rs (delegates to primary). -/
def Parser.factor : Nat → Parser → PRes
  | 0, _ => .fatal "parser out of fuel"
  | fuel + 1, p => Parser.primary fuel p

/-- Parser::primary from src/parser.rs. -/
def Parser.primary : Nat → Parser → PRes
  | 0, _ => .fatal "parser out of fuel"
  | fuel + 1, p =>
      match p.current_kind with
      | some (.Number value) => .ok (.Literal (.Number value)) p.advance
      | some (.Identifier name) => .ok (.Variable name) p.advance
      | some (.String message) => .ok (.Literal (.String message)) p.advance
      | some .LeftParen => Parser.grouping fuel p
      | some kind =>
          .err (p.make_error ("Expected a primary expression, found " ++ kindDebug kind)) p
      | none => .err (p.make_error "Expected an expression") p

/-- Parser::grouping from src/parser.rs.  The `None` arm is the Rust
`unreachable!()`. -/
def Parser.grouping : Nat → Parser → PRes
  | 0, _ => .fatal "parser out of fuel"
  | fuel + 1, p =>
      match Parser.expression fuel p.advance with
      | .ok e p1 =>
          (match p1.current_kind with
           | some .RightParen => .ok (.Grouping e) p1.advance
           | some kind =>
               .err (p1.make_error ("Expected ) after parenthesised expression, found " ++
                 kindDebug kind)) p1
           | none => .fatal "internal error: entered unreachable code")
      | r => r

/-- Parser::statement from src/parser.rs: an expression followed by a
statement terminator or end of input (Empty is passed through). -/
def Parser.statement : Nat → Parser → PRes
  | 0, _ => .fatal "parser out of fuel"
  | fuel + 1, p =>
      match Parser.expression fuel p with
      | .ok .Empty p1 => .ok .Empty p1
      | .ok expr p1 =>
          (match p1.current_kind with
           | some .EndStmt | some .Eof => .ok expr p1
           | some kind =>
               .err (p1.make_error ("Expected ; or newline after expression, found " ++
                 kindDebug kind)) p1
           | none => .err ("Expected ; or newline after expression") p1)
      | r => r
end

/-- Result of Parser::program / Parser::parse. -/
inductive ParseResult where
  | ok (e : Expr)
  | err (errors : List String)
  | fatal (msg : String)
  deriving Repr

/-- Outcome of the while-loop of Parser::program: accumulated statements
and errors plus the final parser state, or a panic. -/
inductive ProgRes where
  | done (statements : List Expr) (errors : List String) (p : Parser)
  | fatal (msg : String)
  deriving Repr

/-- While-loop of Parser::program (src/parser.rs): parse statements until
end of input, dropping Empty statements, recording errors and
synchronising after each failed statement. -/
def Parser.programLoop : Nat → Parser → List Expr → List String → ProgRes
  | 0, _, _, _ => .fatal "parser out of fuel"
  | fuel + 1, p, statements, errors =>
      if p.is_at_end then .done statements errors p
      else
        match Parser.statement fuel p with
        | .ok .Empty p1 => Parser.programLoop fuel p1 statements errors
        | .ok stmt p1 => Parser.programLoop fuel p1 (statements ++ [stmt]) errors
        | .err message p1 =>
            Parser.programLoop fuel (Parser.synchronise (p1.tokens.length + 1) p1)
              statements (errors ++ [message])
        | .fatal msg => .fatal msg

/-- Parser::program from src/parser.rs: run the loop, then succeed with
the Program node only when zero errors accumulated, otherwise return the
full error list. -/
def Parser.program (fuel : Nat) (p : Parser) : ParseResult :=
  match Parser.programLoop fuel p [] [] with
  | .done statements errors _ => if errors = [] then .ok (.Program statements) else .err errors
  | .fatal msg => .fatal msg

/-- Parser::parse from src/parser.rs (fuel generous enough for every
actual run; exhaustion would surface as `fatal`, never as `ok`). -/
def Parser.parse (p : Parser) : ParseResult :=
  Parser.program (8 * (p.tokens.length + 1)) p

/-- Whole-pipeline entry: parse a token list (Parser::new + Parser::parse,
as the driver in src/main.rs composes them). -/
def parse (tokens : List Token) : ParseResult :=
  (Parser.new tokens).parse

/-- Verification-side view: whether `name` is currently bound as a
constant (`bindings.contains_key(name) && bindings[name].is_constant` of
src/runtime.rs). -/
def isConstant (env : Environment) (name : String) : Bool :=
  match lookupEntry env.bindings name with
  | some entry => entry.is_constant
  | none => false

/-- Verification-side view: whether an evaluation outcome is a panic. -/
def EvalOut.isFatal : EvalOut → Bool
  | .fatal _ => true
  | _ => false

/-- Verification-side view: whether a scan outcome is a panic. -/
def ScanResult.isCrash : ScanResult → Bool
  | .crash _ => true
  | _ => false

/-- Arithmetic denotation of the four operator kinds handled by the
Binary arm of `evaluate` (src/eval.rs); other kinds are irrelevant
(the evaluator panics on them). -/
def arithApply : TokenType → ℚ → ℚ → ℚ
  | .Plus, l, r => l + r
  | .Minus, l, r => l - r
  | .Star, l, r => l * r
  | .Slash, l, r => l / r
  | _, _, _ => 0

/-- Verification-side characterisation of the expression trees the parser
productions of src/parser.rs can return: `Produced true` are results of
`expression` (and `statement`), `Produced false` are results of
`binary_expr`/`term`/`factor`/`primary`.  In particular Empty occurs only
at expression level — as a whole statement, as the right-hand side of a
Binding, or as the immediate child of a Grouping — and every Binary node
carries one of the four arithmetic operator kinds. -/
inductive Produced : Bool → Expr → Prop where
  | empty : Produced true .Empty
  | bindE {name : String} {e : Expr} :
      Produced true e → Produced true (.Binding name e)
  | lift {e : Expr} : Produced false e → Produced true e
  | num {q : ℚ} : Produced false (.Literal (.Number q))
  | str {v : String} : Produced false (.Literal (.String v))
  | var {name : String} : Produced false (.Variable name)
  | group {e : Expr} : Produced true e → Produced false (.Grouping e)
  | bin {l r : Expr} {op : Token} :
      Produced false l → Produced false r →
      (op.kind = .Plus ∨ op.kind = .Minus ∨ op.kind = .Star ∨ op.kind = .Slash) →
      Produced false (.Binary l op r)

mutual
/-- Verification-side predicate: the tree contains no Empty node. -/
def noEmpty : Expr → Bool
  | .Program statements => noEmptyList statements
  | .Binary l _ r => noEmpty l && noEmpty r
  | .Unary _ r => noEmpty r
  | .Grouping e => noEmpty e
  | .Variable _ => true
  | .Binding _ e => noEmpty e
  | .Literal _ => true
  | .FunctionDef _ b => noEmpty b
  | .FunctionCall f a => noEmpty f && noEmpty a
  | .If c t e => noEmpty c && noEmpty t && noEmpty e
  | .Empty => false

/-- List version of `noEmpty`. -/
def noEmptyList : List Expr → Bool
  | [] => true
  | e :: es => noEmpty e && noEmptyList es
end

/-- Verification-side invariant for one scan_token outcome relative to the
source and cursor before the call: the source is unchanged and the call
either emitted the Eof token or consumed at least one character. -/
def StepOk (src : List Char) (cur : Nat) : ScanStep → Prop
  | .tok t s' => s'.source = src ∧ (t.kind = .Eof ∨ (cur < s'.current ∧ cur < src.length))
  | .err _ s' => s'.source = src ∧ cur < s'.current ∧ cur < src.length
  | .crash _ => True

/-!
Helper lemmas shared by the claim theorems.
-/

/-- Inserting then looking up the same key yields the inserted entry. -/
theorem lookupEntry_insertEntry (l : List (String × EnvBinding)) (name : String) (b : EnvBinding) :
    lookupEntry (insertEntry l name b) name = some b := by
  induction l with
  | nil => simp [insertEntry, lookupEntry]
  | cons kv rest ih =>
      obtain ⟨k, v⟩ := kv
      by_cases hk : k = name <;> simp [insertEntry, lookupEntry, hk, ih]

/-- Binding a name currently marked constant fails with the
cannot-modify-constant message and returns the environment unchanged. -/
theorem bind_of_constant {env : Environment} {name : String} (value : RuntimeValue)
    (h : isConstant env name = true) :
    env.bind name value = (some ("Cannot modify variable '" ++ name ++ "'"), env) := by
  cases hl : lookupEntry env.bindings name with
  | none => simp [isConstant, hl] at h
  | some entry =>
      have hc : entry.is_constant = true := by simpa [isConstant, hl] using h
      simp [Environment.bind, hl, hc]

/-- Binding a name not marked constant overwrites the entry, as
non-constant, with no error. -/
theorem bind_of_nonconstant {env : Environment} {name : String} (value : RuntimeValue)
    (h : isConstant env name = false) :
    env.bind name value = (none, ⟨insertEntry env.bindings name ⟨value, false⟩⟩) := by
  cases hl : lookupEntry env.bindings name with
  | none => simp [Environment.bind, hl]
  | some entry =>
      have hc : entry.is_constant = false := by simpa [isConstant, hl] using h
      simp [Environment.bind, hl, hc]

/-- C1: once a name is bound as constant — in particular the three
built-ins nil/true/false seeded by Environment::new — `bind` fails with
the cannot-modify-constant error (the code's message names the variable)
and leaves the environment, hence the entry, unchanged; for a name not
bound as constant, `bind` succeeds, (re)binding the name non-constant, so
a second bind of the same name also succeeds and `resolve` returns the
last value. -/
theorem bind_constant_protection :
    (∀ (env : Environment) (name : String) (value : RuntimeValue),
       isConstant env name = true →
       env.bind name value = (some ("Cannot modify variable '" ++ name ++ "'"), env))
  ∧ (isConstant Environment.new "nil" = true ∧ isConstant Environment.new "true" = true ∧
     isConstant Environment.new "false" = true)
  ∧ (∀ (env : Environment) (name : String) (value : RuntimeValue),
       isConstant env name = false →
       (env.bind name value).1 = none ∧
       ((env.bind name value).2).resolve name = some value ∧
       isConstant ((env.bind name value).2) name = false)
  ∧ (∀ (env : Environment) (name : String) (v₁ v₂ : RuntimeValue),
       isConstant env name = false →
       (((env.bind name v₁).2).bind name v₂).1 = none ∧
       ((((env.bind name v₁).2).bind name v₂).2).resolve name = some v₂) := by
  have hnc : ∀ (env : Environment) (name : String) (value : RuntimeValue),
      isConstant env name = false →
      (env.bind name value).1 = none ∧
      ((env.bind name value).2).resolve name = some value ∧
      isConstant ((env.bind name value).2) name = false := by
    intro env name value h
    rw [bind_of_nonconstant value h]
    refine ⟨rfl, ?_, ?_⟩
    · simp [Environment.resolve, lookupEntry_insertEntry]
    · simp [isConstant, lookupEntry_insertEntry]
  refine ⟨fun env name value h => bind_of_constant value h, by decide, hnc, ?_⟩
  intro env name v₁ v₂ h
  have h1 := hnc env name v₁ h
  have h2 := hnc ((env.bind name v₁).2) name v₂ h1.2.2
  exact ⟨h2.1, h2.2.1⟩

/-- Witness for C1 at concrete inputs: rebinding the built-in constant
`true` fails and changes nothing, while binding `x` twice succeeds with
last-write-wins. -/
theorem bind_constant_protection_witness :
    Environment.new.bind "true" (.Number 5) =
      (some "Cannot modify variable 'true'", Environment.new)
  ∧ (((Environment.new.bind "x" (.Number 1)).2).bind "x" (.Number 2)).1 = none
  ∧ ((((Environment.new.bind "x" (.Number 1)).2).bind "x" (.Number 2)).2).resolve "x" =
      some (.Number 2) :=
  ⟨bind_constant_protection.1 Environment.new "true" (.Number 5) (by decide),
   (bind_constant_protection.2.2.2 Environment.new "x" (.Number 1) (.Number 2) (by decide)).1,
   (bind_constant_protection.2.2.2 Environment.new "x" (.Number 1) (.Number 2) (by decide)).2⟩

/-- Splitting the Program statement loop: the statements after a split
point run in the environment the prefix produced, and a prefix failure is
the whole result. -/
theorem evalStatements_append (ss ts : List Expr) (env : Environment) (r : RuntimeValue) :
    evalStatements (ss ++ ts) env r =
      match evalStatements ss env r with
      | .ok v env1 => evalStatements ts env1 v
      | e => e := by
  induction ss generalizing env r with
  | nil => simp [evalStatements]
  | cons s rest ih =>
      simp only [List.cons_append, evalStatements]
      cases h : evaluate s env with
      | ok v env1 => simp [h, ih]
      | err m => rfl
      | fatal m => rfl

/-- C2: an empty Program evaluates to Nil; a Program's result is the
result of its last statement, run in the environment produced by the
earlier statements in order; a Binding first evaluates its right-hand
side, then binds the resulting value, and yields Nil whenever the bind
succeeds (regardless of the bound value) and the bind error otherwise. -/
theorem program_and_binding_semantics :
    (∀ env : Environment, evaluate (.Program []) env = .ok .Nil env)
  ∧ (∀ (ss : List Expr) (s : Expr) (env env₁ : Environment) (v : RuntimeValue),
       evaluate (.Program ss) env = .ok v env₁ →
       evaluate (.Program (ss ++ [s])) env = evaluate s env₁)
  ∧ (∀ (name : String) (rhs : Expr) (env env₁ : Environment) (v : RuntimeValue),
       evaluate rhs env = .ok v env₁ →
       ((env₁.bind name v).1 = none →
          evaluate (.Binding name rhs) env = .ok .Nil ((env₁.bind name v).2))
       ∧ (∀ msg, (env₁.bind name v).1 = some msg →
          evaluate (.Binding name rhs) env = .err msg)) := by
  refine ⟨fun env => rfl, ?_, ?_⟩
  · intro ss s env env₁ v h
    have h' : evalStatements ss env .Nil = .ok v env₁ := by
      simpa [evaluate] using h
    simp only [evaluate, evalStatements_append, h']
    cases hs : evaluate s env₁ with
    | ok w env₂ => simp [evalStatements, hs]
    | err m => simp [evalStatements, hs]
    | fatal m => simp [evalStatements, hs]
  · intro name rhs env env₁ v h
    constructor
    · intro hb
      rcases hbb : env₁.bind name v with ⟨o, env₂⟩
      rw [hbb] at hb
      simp only at hb
      subst hb
      simp [evaluate, h, hbb]
    · intro msg hb
      rcases hbb : env₁.bind name v with ⟨o, env₂⟩
      rw [hbb] at hb
      simp only at hb
      subst hb
      simp [evaluate, h, hbb]

/-- Witness for C2 at concrete inputs: a two-statement program returns
its last statement's value, and a binding returns Nil and installs the
bound value. -/
theorem program_and_binding_semantics_witness :
    evaluate (.Program [.Literal (.Number 1), .Literal (.Number 2)]) Environment.new =
      evaluate (.Literal (.Number 2)) Environment.new
  ∧ evaluate (.Binding "x" (.Literal (.Number 7))) Environment.new =
      .ok .Nil ((Environment.new.bind "x" (.Number 7)).2) :=
  ⟨program_and_binding_semantics.2.1 [.Literal (.Number 1)] (.Literal (.Number 2))
      Environment.new Environment.new (.Number 1) (by rfl),
   (program_and_binding_semantics.2.2 "x" (.Literal (.Number 7)) Environment.new
      Environment.new (.Number 7) (by rfl)).1 (by rfl)⟩

/-- C3: the Binary arm evaluates the left operand, then the right operand
in the environment the left produced; Number operands are used as-is,
Booleans are coerced (true→1, false→0) and String/Nil/Function operands
raise the numbers-only type error; when both operands reduce the result
is the operator's arithmetic value — for `/` unconditionally, with no
divide-by-zero check (the f64 arithmetic itself is abstracted to ℚ). -/
theorem binary_eval_semantics :
    (∀ q : ℚ, numValue (.Number q) = some q)
  ∧ numValue (.Boolean true) = some 1
  ∧ numValue (.Boolean false) = some 0
  ∧ (∀ v : String, numValue (.String v) = none)
  ∧ numValue .Nil = none
  ∧ (∀ a b : Expr, numValue (.Function a b) = none)
  ∧ (∀ (left right : Expr) (op : Token) (env env₁ env₂ : Environment)
       (lv rv : RuntimeValue) (l r : ℚ),
       evaluate left env = .ok lv env₁ →
       evaluate right env₁ = .ok rv env₂ →
       numValue lv = some l → numValue rv = some r →
       (op.kind = .Plus ∨ op.kind = .Minus ∨ op.kind = .Star ∨ op.kind = .Slash) →
       evaluate (.Binary left op right) env = .ok (.Number (arithApply op.kind l r)) env₂)
  ∧ (∀ (left right : Expr) (op : Token) (env env₁ : Environment) (lv : RuntimeValue),
       evaluate left env = .ok lv env₁ → numValue lv = none →
       evaluate (.Binary left op right) env =
         .err "Operands for binary expressions must be numbers")
  ∧ (∀ (left right : Expr) (op : Token) (env env₁ env₂ : Environment)
       (lv rv : RuntimeValue) (l : ℚ),
       evaluate left env = .ok lv env₁ → numValue lv = some l →
       evaluate right env₁ = .ok rv env₂ → numValue rv = none →
       evaluate (.Binary left op right) env =
         .err "Operands for binary expressions must be numbers") := by
  refine ⟨fun q => rfl, rfl, rfl, fun v => rfl, rfl, fun a b => rfl, ?_, ?_, ?_⟩
  · intro left right op env env₁ env₂ lv rv l r hl hr hnl hnr hk
    rcases hk with hk | hk | hk | hk <;>
      simp [evaluate, hl, hr, hnl, hnr, hk, arithApply]
  · intro left right op env env₁ lv hl hnl
    simp [evaluate, hl, hnl]
  · intro left right op env env₁ env₂ lv rv l hl hnl hr hnr
    simp [evaluate, hl, hnl, hr, hnr]

/-- Witness for C3 at concrete inputs: `true / 0` evaluates with the
Boolean coerced to 1 and the division applied unconditionally, and a
String operand raises the numbers-only type error. -/
theorem binary_eval_semantics_witness :
    evaluate (.Binary (.Variable "true") ⟨.Slash, "/", 1, 1⟩ (.Literal (.Number 0)))
      Environment.new = .ok (.Number (arithApply .Slash 1 0)) Environment.new
  ∧ evaluate (.Binary (.Literal (.String "hi")) ⟨.Plus, "+", 1, 1⟩ (.Literal (.Number 1)))
      Environment.new = .err "Operands for binary expressions must be numbers" :=
  ⟨binary_eval_semantics.2.2.2.2.2.2.1 (.Variable "true") (.Literal (.Number 0))
      ⟨.Slash, "/", 1, 1⟩ Environment.new Environment.new Environment.new
      (.Boolean true) (.Number 0) 1 0 (by rfl) (by rfl) (by rfl) (by rfl)
      (Or.inr (Or.inr (Or.inr rfl))),
   binary_eval_semantics.2.2.2.2.2.2.2.1 (.Literal (.String "hi")) (.Literal (.Number 1))
      ⟨.Plus, "+", 1, 1⟩ Environment.new Environment.new (.String "hi") (by rfl) (by rfl)⟩

/-- C4: scanning and parsing `5 + 3 * 1` produces the tree in which
multiplication binds tighter than addition, and a chain `a - b - c` of
same-precedence operators folds left, for every choice of the three
identifier names. -/
theorem parse_precedence_and_associativity :
    scan ("5 + 3 * 1".toList) = .ok
      [⟨.Number 5, "5", 1, 1⟩, ⟨.Plus, "+", 1, 3⟩, ⟨.Number 3, "3", 1, 5⟩,
       ⟨.Star, "*", 1, 7⟩, ⟨.Number 1, "1", 1, 9⟩, ⟨.Eof, "", 1, 9⟩]
  ∧ parse
      [⟨.Number 5, "5", 1, 1⟩, ⟨.Plus, "+", 1, 3⟩, ⟨.Number 3, "3", 1, 5⟩,
       ⟨.Star, "*", 1, 7⟩, ⟨.Number 1, "1", 1, 9⟩, ⟨.Eof, "", 1, 9⟩] =
      .ok (.Program [.Binary (.Literal (.Number 5)) ⟨.Plus, "+", 1, 3⟩
        (.Binary (.Literal (.Number 3)) ⟨.Star, "*", 1, 7⟩ (.Literal (.Number 1)))])
  ∧ (∀ a b c : String,
      parse [⟨.Identifier a, a, 1, 1⟩, ⟨.Minus, "-", 1, 2⟩, ⟨.Identifier b, b, 1, 3⟩,
             ⟨.Minus, "-", 1, 4⟩, ⟨.Identifier c, c, 1, 5⟩, ⟨.Eof, "", 1, 5⟩] =
        .ok (.Program [.Binary (.Binary (.Variable a) ⟨.Minus, "-", 1, 2⟩ (.Variable b))
          ⟨.Minus, "-", 1, 4⟩ (.Variable c)])) :=
  ⟨rfl, rfl, fun a b c => rfl⟩

/-- C5: on the tokens of `5 + ; 3 * 2;` the program loop accumulates
exactly one error (for the malformed first statement), synchronises, and
still builds the second statement's tree; `parse` then returns that full
error list, and in general `program` succeeds exactly when the loop
accumulated zero errors, otherwise returning the complete list. -/
theorem parse_error_recovery :
    scan ("5 + ; 3 * 2;".toList) = .ok
      [⟨.Number 5, "5", 1, 1⟩, ⟨.Plus, "+", 1, 3⟩, ⟨.EndStmt, ";", 1, 5⟩,
       ⟨.Number 3, "3", 1, 7⟩, ⟨.Star, "*", 1, 9⟩, ⟨.Number 2, "2", 1, 11⟩,
       ⟨.EndStmt, ";", 1, 12⟩, ⟨.Eof, "", 1, 12⟩]
  ∧ Parser.programLoop 72
      (Parser.new
        [⟨.Number 5, "5", 1, 1⟩, ⟨.Plus, "+", 1, 3⟩, ⟨.EndStmt, ";", 1, 5⟩,
         ⟨.Number 3, "3", 1, 7⟩, ⟨.Star, "*", 1, 9⟩, ⟨.Number 2, "2", 1, 11⟩,
         ⟨.EndStmt, ";", 1, 12⟩, ⟨.Eof, "", 1, 12⟩]) [] [] =
      .done [.Binary (.Literal (.Number 3)) ⟨.Star, "*", 1, 9⟩ (.Literal (.Number 2))]
        ["[Line 1, Col 5] Expected a primary expression, found EndStmt"]
        ⟨[⟨.Number 5, "5", 1, 1⟩, ⟨.Plus, "+", 1, 3⟩, ⟨.EndStmt, ";", 1, 5⟩,
          ⟨.Number 3, "3", 1, 7⟩, ⟨.Star, "*", 1, 9⟩, ⟨.Number 2, "2", 1, 11⟩,
          ⟨.EndStmt, ";", 1, 12⟩, ⟨.Eof, "", 1, 12⟩], 7⟩
  ∧ parse
      [⟨.Number 5, "5", 1, 1⟩, ⟨.Plus, "+", 1, 3⟩, ⟨.EndStmt, ";", 1, 5⟩,
       ⟨.Number 3, "3", 1, 7⟩, ⟨.Star, "*", 1, 9⟩, ⟨.Number 2, "2", 1, 11⟩,
       ⟨.EndStmt, ";", 1, 12⟩, ⟨.Eof, "", 1, 12⟩] =
      .err ["[Line 1, Col 5] Expected a primary expression, found EndStmt"]
  ∧ (∀ (fuel : Nat) (q : Parser) (statements : List Expr) (errors : List String) (q' : Parser),
       Parser.programLoop fuel q [] [] = .done statements errors q' →
       Parser.program fuel q =
         if errors = [] then .ok (.Program statements) else .err errors) := by
  refine ⟨rfl, rfl, rfl, ?_⟩
  intro fuel q statements errors q' h
  simp [Parser.program, h]

/-- Witness for C5's general conjunct at a concrete input: a lone Eof
token yields zero errors and an Ok program. -/
theorem parse_error_recovery_witness :
    Parser.program 16 (Parser.new [⟨.Eof, "", 1, 1⟩]) =
      if ([] : List String) = [] then .ok (.Program []) else .err [] :=
  parse_error_recovery.2.2.2 16 (Parser.new [⟨.Eof, "", 1, 1⟩]) [] []
    (Parser.new [⟨.Eof, "", 1, 1⟩]) (by rfl)

/-- Counterexample for C7: scanning `12 34` stamps the second number
token with column 3, not column 4 — the column counter advances once per
scan_token call, not once per consumed character. -/
theorem scan_column_stamp_counterexample :
    ¬ (∀ ts : List Token, scan ("12 34".toList) = .ok ts →
        ∀ t ∈ ts, t.kind = .Number 34 → t.column = 4) := by
  intro h
  have h34 := h
    [⟨.Number 12, "12", 1, 1⟩, ⟨.Number 34, "34", 1, 3⟩, ⟨.Eof, "", 1, 3⟩] rfl
    ⟨.Number 34, "34", 1, 3⟩ (by simp) rfl
  simp at h34

/-- C7 as amended: the line counter starts at 1 and the column counter at
0; the column is bumped once per scan_token invocation (per emitted token
or skipped character), not once per consumed character, so the second
number of `12 34` is stamped column 3; a newline increments the line and
resets the column to 1 before the terminator token is stamped, so the
newline token carries the new line and column 1. -/
theorem scan_position_stamping :
    (∀ source : List Char, (Scanner.new source).line = 1 ∧ (Scanner.new source).column = 0)
  ∧ scan ("12 34".toList) = .ok
      [⟨.Number 12, "12", 1, 1⟩, ⟨.Number 34, "34", 1, 3⟩, ⟨.Eof, "", 1, 3⟩]
  ∧ scan ("a\nb".toList) = .ok
      [⟨.Identifier "a", "a", 1, 1⟩, ⟨.EndStmt, "\n", 2, 1⟩,
       ⟨.Identifier "b", "b", 2, 2⟩, ⟨.Eof, "", 2, 2⟩] :=
  ⟨fun source => ⟨rfl, rfl⟩, rfl, rfl⟩

/-- C8 (code bug): a `|` followed by fewer than two characters, or a `:`
at the end of the input, makes Scanner::maps_to / Scanner::binding slice
past the end of the source and panic instead of recording a scan error —
while with enough following characters the scanner does record the
expected error, advances one character and continues. -/
theorem scanner_symbol_slice_panics :
    scan ("|".toList) = .crash "index out of bounds in Scanner::maps_to"
  ∧ scan ("|-".toList) = .crash "index out of bounds in Scanner::maps_to"
  ∧ scan (":".toList) = .crash "index out of bounds in Scanner::binding"
  ∧ scan ("|ab".toList) = .err ["[Line 1, Col 1] Expected a |-> (MapsTo) symbol"]
  ∧ scan (":x".toList) = .err ["[Line 1, Col 1] Expected a := (Binding) symbol"] :=
  ⟨rfl, rfl, rfl, rfl, rfl⟩

/-- Helper for C9: on a source whose remaining characters are all
skippable whitespace (space, carriage return, tab), scan_token consumes
them all and emits the Eof token, bumping the column once per skipped
character. -/
theorem scan_token_whitespace :
    ∀ (fuel : Nat) (s : Scanner),
      s.source.length - s.current < fuel →
      s.current ≤ s.source.length →
      (∀ c ∈ s.source.drop s.current, c = ' ' ∨ c = '\r' ∨ c = '\t') →
      Scanner.scan_token fuel s =
        .tok ⟨.Eof, "", s.line, s.column + (s.source.length - s.current)⟩
          ⟨s.source, s.source.length, s.source.length, s.line,
           s.column + (s.source.length - s.current)⟩ := by
  intro fuel
  induction fuel with
  | zero => intro s hf _ _; omega
  | succ fuel ih =>
      intro s hf hle hws
      by_cases hend : s.current < s.source.length
      · have hsome : s.source[s.current]? = some s.source[s.current] :=
          List.getElem?_eq_getElem hend
        have hdropcons : s.source.drop s.current =
            s.source[s.current] :: s.source.drop (s.current + 1) :=
          List.drop_eq_getElem_cons hend
        have hch := hws _ (by rw [hdropcons]; exact List.mem_cons_self _ _)
        have harith : s.column + 1 + (s.source.length - (s.current + 1)) =
            s.column + (s.source.length - s.current) := by omega
        have hrec := ih ⟨s.source, s.current, s.current + 1, s.line, s.column + 1⟩
          (by simp; omega) (by simp; omega)
          (by
            intro c hc
            refine hws c ?_
            rw [hdropcons]
            exact List.mem_cons_of_mem _ hc)
        rcases hch with hch | hch | hch <;>
          · simp only [Scanner.scan_token, hsome, hch]
            simp only [Scanner.advance]
            rw [if_neg (by simp [hch]), if_neg (by simp [hch]), if_neg (by simp [hch]),
              if_neg (by simp [hch]), if_neg (by simp [hch]), if_neg (by simp [hch]),
              if_neg (by simp [hch]), if_neg (by simp [hch]), if_neg (by simp [hch]),
              if_neg (by simp [hch]), if_neg (by simp [hch]), if_neg (by simp [hch]),
              if_pos (by simp)]
            rw [hrec]
            simp [harith]
      · have hcur : s.current = s.source.length := by omega
        have hnone : s.source[s.current]? = none := by
          rw [List.getElem?_eq_none]; omega
        simp only [Scanner.scan_token, hnone]
        simp [Scanner.make_token, hcur]

/-- C9: for every source text consisting solely of skippable whitespace
characters (space, carriage return, tab — the characters src/token.rs
skips without emitting a token), scan succeeds with exactly one token,
the Eof token, and parsing that token sequence yields a Program with an
empty statement list. -/
theorem whitespace_scan_parse :
    ∀ source : List Char,
      (∀ c ∈ source, c = ' ' ∨ c = '\r' ∨ c = '\t') →
      scan source = .ok [⟨.Eof, "", 1, source.length⟩]
    ∧ parse [⟨.Eof, "", 1, source.length⟩] = .ok (.Program []) := by
  intro source hws
  constructor
  · have hst := scan_token_whitespace (source.length + 1) (Scanner.new source)
      (by simp [Scanner.new]) (by simp [Scanner.new])
      (by simpa [Scanner.new] using hws)
    simp [scan, Scanner.scan, scanAux, Scanner.new] at hst ⊢
    simp [hst]
  · rfl

/-- Witness for C9 at a concrete whitespace-only source. -/
theorem whitespace_scan_parse_witness :
    scan ("  \t".toList) = .ok [⟨.Eof, "", 1, ("  \t".toList).length⟩]
  ∧ parse [⟨.Eof, "", 1, ("  \t".toList).length⟩] = .ok (.Program []) :=
  whitespace_scan_parse ("  \t".toList) (by decide)

/-- Helper: the string-consuming loop never changes the source and never
moves the cursor backwards. -/
theorem consumeString_progress :
    ∀ (fuel : Nat) (s s' : Scanner) (b : Bool),
      consumeString fuel s = some (s', b) →
      s'.source = s.source ∧ s.current ≤ s'.current := by
  intro fuel
  induction fuel with
  | zero => intro s s' b h; exact Option.noConfusion h
  | succ fuel ih =>
      intro s s' b h
      simp only [consumeString] at h
      cases hc : s.source[s.current]? with
      | none =>
          rw [hc] at h
          simp only [Option.some.injEq, Prod.mk.injEq] at h
          obtain ⟨h1, _⟩ := h
          subst h1
          exact ⟨rfl, le_refl _⟩
      | some ch =>
          rw [hc] at h
          dsimp only at h
          by_cases hq : ch = '"'
          · rw [if_pos hq] at h
            simp only [Option.some.injEq, Prod.mk.injEq] at h
            obtain ⟨h1, _⟩ := h
            subst h1
            exact ⟨rfl, by simp [Scanner.advance]⟩
          · rw [if_neg hq] at h
            have hrec := ih s.advance s' b h
            refine ⟨hrec.1, ?_⟩
            have := hrec.2
            simp [Scanner.advance] at this
            omega

/-- Helper: progress and source preservation for Scanner::maps_to. -/
theorem maps_to_progress :
    ∀ s : Scanner,
      (∀ t s', s.maps_to = .tok t s' → s'.source = s.source ∧ s'.current = s.current + 3)
    ∧ (∀ m s', s.maps_to = .err m s' → s'.source = s.source ∧ s'.current = s.current + 1) := by
  intro s
  constructor
  · intro t s' h
    simp only [Scanner.maps_to] at h
    split_ifs at h <;> cases h <;> exact ⟨rfl, rfl⟩
  · intro m s' h
    simp only [Scanner.maps_to] at h
    split_ifs at h <;> cases h <;> exact ⟨rfl, rfl⟩

/-- Helper: progress and source preservation for Scanner::binding. -/
theorem binding_progress :
    ∀ s : Scanner,
      (∀ t s', s.binding = .tok t s' → s'.source = s.source ∧ s'.current = s.current + 2)
    ∧ (∀ m s', s.binding = .err m s' → s'.source = s.source ∧ s'.current = s.current + 1) := by
  intro s
  constructor
  · intro t s' h
    simp only [Scanner.binding] at h
    split_ifs at h <;> cases h <;> exact ⟨rfl, rfl⟩
  · intro m s' h
    simp only [Scanner.binding] at h
    split_ifs at h <;> cases h <;> exact ⟨rfl, rfl⟩

/-- Helper: progress and source preservation for Scanner::string. -/
theorem string_progress :
    ∀ s : Scanner,
      (∀ t s', s.string = .tok t s' → s'.source = s.source ∧ s.current < s'.current)
    ∧ (∀ m s', s.string = .err m s' → s'.source = s.source ∧ s.current < s'.current) := by
  intro s
  have key : ∀ (r : ScanStep), r = s.string →
      (∀ t s', r = .tok t s' → s'.source = s.source ∧ s.current < s'.current)
    ∧ (∀ m s', r = .err m s' → s'.source = s.source ∧ s.current < s'.current) := by
    intro r hr
    simp only [Scanner.string] at hr
    cases hcs : consumeString (s.advance.source.length + 1) s.advance with
    | none =>
        rw [hcs] at hr
        subst hr
        exact ⟨fun t s' h => ScanStep.noConfusion h, fun m s' h => ScanStep.noConfusion h⟩
    | some pair =>
        obtain ⟨s2, b⟩ := pair
        have hp := consumeString_progress _ _ _ _ hcs
        have hsrc : s2.source = s.source := by
          have := hp.1
          simpa [Scanner.advance] using this
        have hcur : s.current < s2.current := by
          have := hp.2
          simp [Scanner.advance] at this
          omega
        rw [hcs] at hr
        cases b
        · subst hr
          exact ⟨fun t s' h => ScanStep.noConfusion h,
                 fun m s' h => by cases h; exact ⟨hsrc, hcur⟩⟩
        · subst hr
          exact ⟨fun t s' h => by cases h; exact ⟨hsrc, hcur⟩,
                 fun m s' h => ScanStep.noConfusion h⟩
  exact key s.string rfl

/-- Helper: progress and source preservation for Scanner::number, given
that the character under the cursor is in the numeric start set. -/
theorem number_progress :
    ∀ (s : Scanner) (ch : Char),
      s.source[s.current]? = some ch → (ch.isDigit ∨ ch = '.') →
      (∀ t s', s.number = .tok t s' → s'.source = s.source ∧ s.current < s'.current)
    ∧ (∀ m s', s.number = .err m s' → s'.source = s.source ∧ s.current < s'.current) := by
  intro s ch hc hpred
  have hlt : s.current < s.source.length := by
    by_contra hge
    rw [List.getElem?_eq_none (by omega)] at hc
    exact Option.noConfusion hc
  have hch : s.source[s.current] = ch := by
    have := List.getElem?_eq_getElem hlt
    rw [hc] at this
    exact (Option.some.injEq _ _ ▸ this).symm
  have hptrue : (ch.isDigit || ch = '.') = true := by
    rcases hpred with h | h <;> simp [h]
  have hrun : 1 ≤ ((s.source.drop s.current).takeWhile (fun c => c.isDigit || c = '.')).length := by
    rw [List.drop_eq_getElem_cons hlt, hch, List.takeWhile_cons, hptrue]
    simp
  constructor
  · intro t s' h
    simp only [Scanner.number] at h
    split at h <;> cases h <;> exact ⟨rfl, by simp; omega⟩
  · intro m s' h
    simp only [Scanner.number] at h
    split at h <;> cases h <;> exact ⟨rfl, by simp; omega⟩

/-- Helper: progress and source preservation for Scanner::identifier,
given that the character under the cursor is alphabetic. -/
theorem identifier_progress :
    ∀ (s : Scanner) (ch : Char),
      s.source[s.current]? = some ch → ch.isAlpha →
      ∀ t s', s.identifier = .tok t s' → s'.source = s.source ∧ s.current < s'.current := by
  intro s ch hc hpred t s' h
  have hlt : s.current < s.source.length := by
    by_contra hge
    rw [List.getElem?_eq_none (by omega)] at hc
    exact Option.noConfusion hc
  have hch : s.source[s.current] = ch := by
    have := List.getElem?_eq_getElem hlt
    rw [hc] at this
    exact (Option.some.injEq _ _ ▸ this).symm
  have hptrue : (ch.isAlphanum || ch = '_') = true := by
    simp [Char.isAlphanum, hpred]
  have hrun : 1 ≤ ((s.source.drop s.current).takeWhile (fun c => c.isAlphanum || c = '_')).length := by
    rw [List.drop_eq_getElem_cons hlt, hch, List.takeWhile_cons, hptrue]
    simp
  simp only [Scanner.identifier] at h
  split_ifs at h <;> cases h <;> exact ⟨rfl, by simp; omega⟩


/-- StepOk is monotone in the cursor position. -/
theorem StepOk_mono {src : List Char} {cur cur' : Nat} {r : ScanStep}
    (h : StepOk src cur' r) (hcc : cur < cur') (hlen : cur < src.length) : StepOk src cur r := by
  cases r with
  | tok t s' =>
      obtain ⟨hs, hd⟩ := h
      refine ⟨hs, ?_⟩
      rcases hd with he | ⟨h1, _⟩
      · exact Or.inl he
      · exact Or.inr ⟨by omega, hlen⟩
  | err m s' =>
      obtain ⟨hs, h1, _⟩ := h
      exact ⟨hs, by omega, hlen⟩
  | crash m => trivial

/-- StepOk for Scanner::maps_to. -/
theorem StepOk_maps_to (s : Scanner) (hlt : s.current < s.source.length) :
    StepOk s.source s.current s.maps_to := by
  cases hm : s.maps_to with
  | tok t s' =>
      obtain ⟨hs, hc⟩ := (maps_to_progress s).1 t s' hm
      exact ⟨hs, Or.inr ⟨by omega, hlt⟩⟩
  | err m s' =>
      obtain ⟨hs, hc⟩ := (maps_to_progress s).2 m s' hm
      exact ⟨hs, by omega, hlt⟩
  | crash m => trivial

/-- StepOk for Scanner::binding. -/
theorem StepOk_binding (s : Scanner) (hlt : s.current < s.source.length) :
    StepOk s.source s.current s.binding := by
  cases hm : s.binding with
  | tok t s' =>
      obtain ⟨hs, hc⟩ := (binding_progress s).1 t s' hm
      exact ⟨hs, Or.inr ⟨by omega, hlt⟩⟩
  | err m s' =>
      obtain ⟨hs, hc⟩ := (binding_progress s).2 m s' hm
      exact ⟨hs, by omega, hlt⟩
  | crash m => trivial

/-- StepOk for Scanner::string. -/
theorem StepOk_string (s : Scanner) (hlt : s.current < s.source.length) :
    StepOk s.source s.current s.string := by
  cases hm : s.string with
  | tok t s' =>
      obtain ⟨hs, hc⟩ := (string_progress s).1 t s' hm
      exact ⟨hs, Or.inr ⟨hc, hlt⟩⟩
  | err m s' =>
      obtain ⟨hs, hc⟩ := (string_progress s).2 m s' hm
      exact ⟨hs, hc, hlt⟩
  | crash m => trivial

/-- StepOk for Scanner::number. -/
theorem StepOk_number (s : Scanner) (ch : Char)
    (hc : s.source[s.current]? = some ch) (hpred : ch.isDigit ∨ ch = '.')
    (hlt : s.current < s.source.length) :
    StepOk s.source s.current s.number := by
  cases hm : s.number with
  | tok t s' =>
      obtain ⟨hs, hcur⟩ := (number_progress s ch hc hpred).1 t s' hm
      exact ⟨hs, Or.inr ⟨hcur, hlt⟩⟩
  | err m s' =>
      obtain ⟨hs, hcur⟩ := (number_progress s ch hc hpred).2 m s' hm
      exact ⟨hs, hcur, hlt⟩
  | crash m => trivial

/-- StepOk for Scanner::identifier. -/
theorem StepOk_identifier (s : Scanner) (ch : Char)
    (hc : s.source[s.current]? = some ch) (hpred : ch.isAlpha)
    (hlt : s.current < s.source.length) :
    StepOk s.source s.current s.identifier := by
  cases hm : s.identifier with
  | tok t s' =>
      obtain ⟨hs, hcur⟩ := identifier_progress s ch hc hpred t s' hm
      exact ⟨hs, Or.inr ⟨hcur, hlt⟩⟩
  | err m s' =>
      simp only [Scanner.identifier] at hm
      split_ifs at hm <;> cases hm
  | crash m => trivial

/-- Helper: every scan_token call preserves the source and either emits
the Eof token or strictly advances the cursor from inside the source. -/
theorem scan_token_stepOk :
    ∀ (fuel : Nat) (s : Scanner), StepOk s.source s.current (Scanner.scan_token fuel s) := by
  intro fuel
  induction fuel with
  | zero => intro s; trivial
  | succ fuel ih =>
      intro s
      cases hc : s.source[s.current]? with
      | none =>
          simp only [Scanner.scan_token, hc]
          exact ⟨rfl, Or.inl rfl⟩
      | some ch =>
          have hlt : s.current < s.source.length := by
            by_contra hge
            rw [List.getElem?_eq_none (by omega)] at hc
            exact Option.noConfusion hc
          simp only [Scanner.scan_token, hc]
          by_cases h1 : ch = '+'
          · rw [if_pos h1]; exact ⟨rfl, Or.inr ⟨Nat.lt_succ_self _, hlt⟩⟩
          rw [if_neg h1]
          by_cases h2 : ch = '-'
          · rw [if_pos h2]; exact ⟨rfl, Or.inr ⟨Nat.lt_succ_self _, hlt⟩⟩
          rw [if_neg h2]
          by_cases h3 : ch = '*'
          · rw [if_pos h3]; exact ⟨rfl, Or.inr ⟨Nat.lt_succ_self _, hlt⟩⟩
          rw [if_neg h3]
          by_cases h4 : ch = '/'
          · rw [if_pos h4]; exact ⟨rfl, Or.inr ⟨Nat.lt_succ_self _, hlt⟩⟩
          rw [if_neg h4]
          by_cases h5 : ch = '<'
          · rw [if_pos h5]; exact ⟨rfl, Or.inr ⟨Nat.lt_succ_self _, hlt⟩⟩
          rw [if_neg h5]
          by_cases h6 : ch = '>'
          · rw [if_pos h6]; exact ⟨rfl, Or.inr ⟨Nat.lt_succ_self _, hlt⟩⟩
          rw [if_neg h6]
          by_cases h7 : ch = '('
          · rw [if_pos h7]; exact ⟨rfl, Or.inr ⟨Nat.lt_succ_self _, hlt⟩⟩
          rw [if_neg h7]
          by_cases h8 : ch = ')'
          · rw [if_pos h8]; exact ⟨rfl, Or.inr ⟨Nat.lt_succ_self _, hlt⟩⟩
          rw [if_neg h8]
          by_cases h9 : ch = '|'
          · rw [if_pos h9]; exact StepOk_maps_to _ hlt
          rw [if_neg h9]
          by_cases h10 : ch = ':'
          · rw [if_pos h10]; exact StepOk_binding _ hlt
          rw [if_neg h10]
          by_cases h11 : ch = '"'
          · rw [if_pos h11]; exact StepOk_string _ hlt
          rw [if_neg h11]
          by_cases h12 : ch = '\n' ∨ ch = ';'
          · rw [if_pos h12]
            by_cases h12b : ch = '\n'
            · rw [if_pos h12b]; exact ⟨rfl, Or.inr ⟨Nat.lt_succ_self _, hlt⟩⟩
            · rw [if_neg h12b]; exact ⟨rfl, Or.inr ⟨Nat.lt_succ_self _, hlt⟩⟩
          rw [if_neg h12]
          by_cases h13 : ch = ' ' ∨ ch = '\r' ∨ ch = '\t'
          · rw [if_pos h13]
            exact StepOk_mono (ih _) (Nat.lt_succ_self _) hlt
          rw [if_neg h13]
          by_cases h14 : ch.isDigit ∨ ch = '.'
          · rw [if_pos h14]; exact StepOk_number _ ch hc h14 hlt
          rw [if_neg h14]
          by_cases h15 : ch.isAlpha
          · rw [if_pos h15]; exact StepOk_identifier _ ch hc h15 hlt
          rw [if_neg h15]
          exact ⟨rfl, Nat.lt_succ_self _, hlt⟩

/-- Helper: the scan loop never exhausts the fuel `Scanner.scan`
supplies, because every iteration that does not stop consumes at least
one source character. -/
theorem scanAux_isSome :
    ∀ (fuel : Nat) (s : Scanner) (tokens : List Token) (errors : List String),
      s.source.length - s.current < fuel →
      (scanAux fuel s tokens errors).isSome = true := by
  intro fuel
  induction fuel with
  | zero => intro s _ _ h; omega
  | succ fuel ih =>
      intro s tokens errors hf
      have hstep := scan_token_stepOk (s.source.length + 1) s
      simp only [scanAux]
      cases hc : Scanner.scan_token (s.source.length + 1) s with
      | tok t s' =>
          dsimp only
          rw [hc] at hstep
          by_cases ht : t.kind = .Eof
          · rw [if_pos ht]
            simp
          · rw [if_neg ht]
            obtain ⟨hs, hd⟩ := hstep
            rcases hd with he | ⟨h1, h2⟩
            · exact absurd he ht
            · apply ih
              rw [hs]
              omega
      | err m s' =>
          dsimp only
          obtain ⟨hs, h1, h2⟩ := hc ▸ hstep
          apply ih
          rw [hs]
          omega
      | crash m => simp

/-- Helper: shape of the scan loop's results — an Ok result is the
accumulated tokens followed by fresh non-Eof tokens and a final Eof token
and can only arise from an empty error list, while an Err result carries
a non-empty error list. -/
theorem scanAux_structure :
    ∀ (fuel : Nat) (s : Scanner) (tokens : List Token) (errors : List String),
      (∀ ts, scanAux fuel s tokens errors = some (.ok ts) →
        errors = [] ∧ ∃ pre t, ts = tokens ++ pre ++ [t] ∧ t.kind = .Eof ∧
          ∀ u ∈ pre, u.kind ≠ .Eof)
    ∧ (∀ es, scanAux fuel s tokens errors = some (.err es) → es ≠ []) := by
  intro fuel
  induction fuel with
  | zero =>
      intro s tokens errors
      exact ⟨fun ts h => Option.noConfusion h, fun es h => Option.noConfusion h⟩
  | succ fuel ih =>
      intro s tokens errors
      constructor
      · intro ts h
        simp only [scanAux] at h
        cases hc : Scanner.scan_token (s.source.length + 1) s with
        | tok t s' =>
            rw [hc] at h
            dsimp only at h
            by_cases ht : t.kind = .Eof
            · rw [if_pos ht] at h
              by_cases he : errors = []
              · rw [if_pos he] at h
                simp only [Option.some.injEq, ScanResult.ok.injEq] at h
                subst h
                exact ⟨he, [], t, by simp, ht, by simp⟩
              · rw [if_neg he] at h
                simp at h
            · rw [if_neg ht] at h
              obtain ⟨hE, pre, t', hts, ht', hpre⟩ := (ih s' (tokens ++ [t]) errors).1 ts h
              refine ⟨hE, t :: pre, t', by simpa using hts, ht', ?_⟩
              intro u hu
              rcases List.mem_cons.mp hu with hu | hu
              · subst hu; exact ht
              · exact hpre u hu
        | err m s' =>
            rw [hc] at h
            dsimp only at h
            exact absurd ((ih s' tokens (errors ++ [m])).1 ts h).1 (by simp)
        | crash m =>
            rw [hc] at h
            dsimp only at h
            simp at h
      · intro es h
        simp only [scanAux] at h
        cases hc : Scanner.scan_token (s.source.length + 1) s with
        | tok t s' =>
            rw [hc] at h
            dsimp only at h
            by_cases ht : t.kind = .Eof
            · rw [if_pos ht] at h
              by_cases he : errors = []
              · rw [if_pos he] at h
                simp at h
              · rw [if_neg he] at h
                simp only [Option.some.injEq, ScanResult.err.injEq] at h
                subst h
                exact he
            · rw [if_neg ht] at h
              exact (ih s' (tokens ++ [t]) errors).2 es h
        | err m s' =>
            rw [hc] at h
            dsimp only at h
            exact (ih s' tokens (errors ++ [m])).2 es h
        | crash m =>
            rw [hc] at h
            dsimp only at h
            simp at h

/-- C6 as amended: for every source text on which scanning does not
panic, scan runs to the end of the input and returns either the full
non-empty list of collected lexical errors or a token list ending in
exactly one end-of-input token (no other Eof token occurs); the concrete
conjunct shows two lexical errors from one pass, so scanning did not stop
at the first error. -/
theorem scan_error_aggregation :
    (∀ source : List Char, (scan source).isCrash = false →
       (∃ errors, scan source = .err errors ∧ errors ≠ []) ∨
       (∃ tokens t, scan source = .ok (tokens ++ [t]) ∧ t.kind = .Eof ∧
          ∀ u ∈ tokens, u.kind ≠ .Eof))
  ∧ scan ("?;@".toList) =
      .err ["[Line 1, Col 1] Unexpected character: ?",
            "[Line 1, Col 3] Unexpected character: @"] := by
  constructor
  · intro source hnc
    have hsome := scanAux_isSome (source.length + 1) (Scanner.new source) [] []
      (by simp [Scanner.new])
    rcases haux : scanAux (source.length + 1) (Scanner.new source) [] [] with _ | r
    · rw [haux] at hsome
      simp at hsome
    · have hres : scan source = r := by
        show (match scanAux (source.length + 1) (Scanner.new source) [] [] with
          | some r => r
          | none => ScanResult.crash "out of fuel") = r
        rw [haux]
      cases r with
      | ok ts =>
          right
          obtain ⟨hE, pre, t, hts, ht, hpre⟩ :=
            (scanAux_structure (source.length + 1) (Scanner.new source) [] []).1 ts haux
          refine ⟨pre, t, ?_, ht, hpre⟩
          rw [hres, hts]
          simp
      | err es =>
          left
          exact ⟨es, hres,
            (scanAux_structure (source.length + 1) (Scanner.new source) [] []).2 es haux⟩
      | crash m =>
          rw [hres] at hnc
          simp [ScanResult.isCrash] at hnc
  · rfl

/-- Witness for C6's universal conjunct at a concrete input. -/
theorem scan_error_aggregation_witness :
    (scan ("ab".toList)).isCrash = false ∧
    ((∃ errors, scan ("ab".toList) = .err errors ∧ errors ≠ []) ∨
     (∃ tokens t, scan ("ab".toList) = .ok (tokens ++ [t]) ∧ t.kind = .Eof ∧
        ∀ u ∈ tokens, u.kind ≠ .Eof)) :=
  ⟨rfl, scan_error_aggregation.1 ("ab".toList) rfl⟩

/-- Counterexample for C6 as stated: for the source text `|` scan neither
returns an error list nor a token sequence — it panics (out-of-bounds
slice), so the universal claim over every source text fails. -/
theorem scan_aggregation_counterexample :
    (scan ("|".toList)).isCrash = true
  ∧ (∀ errors, scan ("|".toList) ≠ .err errors)
  ∧ (∀ tokens, scan ("|".toList) ≠ .ok tokens) := by
  refine ⟨rfl, ?_, ?_⟩
  · intro errors h
    have : scan ("|".toList) = .crash "index out of bounds in Scanner::maps_to" := rfl
    rw [this] at h
    exact ScanResult.noConfusion h
  · intro tokens h
    have : scan ("|".toList) = .crash "index out of bounds in Scanner::maps_to" := rfl
    rw [this] at h
    exact ScanResult.noConfusion h

/-- Helper: an Empty-free expression of a shape the parser produces never
evaluates to the fatal (panic) outcome. -/
theorem produced_eval_not_fatal :
    ∀ {b : Bool} {e : Expr}, Produced b e → noEmpty e = true →
      ∀ env : Environment, (evaluate e env).isFatal = false := by
  intro b e hp
  induction hp with
  | empty =>
      intro hne
      simp [noEmpty] at hne
  | @bindE name esub hsub ih =>
      intro hne env
      have hne' : noEmpty esub = true := by simpa [noEmpty] using hne
      cases hev : evaluate esub env with
      | ok v env1 =>
          rcases hbb : env1.bind name v with ⟨o, env2⟩
          cases o <;> simp [evaluate, hev, hbb, EvalOut.isFatal]
      | err m => simp [evaluate, hev, EvalOut.isFatal]
      | fatal m =>
          have := ih hne' env
          rw [hev] at this
          simp [EvalOut.isFatal] at this
  | lift hsub ih => intro hne env; exact ih hne env
  | num => intro _ env; simp [evaluate, EvalOut.isFatal]
  | str => intro _ env; simp [evaluate, EvalOut.isFatal]
  | @var name =>
      intro _ env
      cases hres : env.resolve name <;> simp [evaluate, hres, EvalOut.isFatal]
  | @group esub hsub ih =>
      intro hne env
      have hne' : noEmpty esub = true := by simpa [noEmpty] using hne
      simp only [evaluate]
      exact ih hne' env
  | @bin l r op hl hr hop ihl ihr =>
      intro hne env
      have hnel : noEmpty l = true := by
        simp [noEmpty, Bool.and_eq_true] at hne
        exact hne.1
      have hner : noEmpty r = true := by
        simp [noEmpty, Bool.and_eq_true] at hne
        exact hne.2
      cases hevl : evaluate l env with
      | fatal m =>
          have := ihl hnel env
          rw [hevl] at this
          simp [EvalOut.isFatal] at this
      | err m => simp [evaluate, hevl, EvalOut.isFatal]
      | ok lv env1 =>
          cases hnl : numValue lv with
          | none => simp [evaluate, hevl, hnl, EvalOut.isFatal]
          | some lq =>
              cases hevr : evaluate r env1 with
              | fatal m =>
                  have := ihr hner env1
                  rw [hevr] at this
                  simp [EvalOut.isFatal] at this
              | err m => simp [evaluate, hevl, hnl, hevr, EvalOut.isFatal]
              | ok rv env2 =>
                  cases hnr : numValue rv with
                  | none => simp [evaluate, hevl, hnl, hevr, hnr, EvalOut.isFatal]
                  | some rq =>
                      rcases hop with hk | hk | hk | hk <;>
                        simp [evaluate, hevl, hnl, hevr, hnr, hk, EvalOut.isFatal]

/-- Helper: a statement list of parser-produced, Empty-free statements
never evaluates to the fatal outcome. -/
theorem evalStatements_not_fatal :
    ∀ (ss : List Expr) (env : Environment) (r : RuntimeValue),
      (∀ e ∈ ss, Produced true e) → noEmptyList ss = true →
      (evalStatements ss env r).isFatal = false := by
  intro ss
  induction ss with
  | nil => intro env r _ _; simp [evalStatements, EvalOut.isFatal]
  | cons s rest ih =>
      intro env r hP hne
      have hnes : noEmpty s = true := by
        simp [noEmptyList, Bool.and_eq_true] at hne
        exact hne.1
      have hner : noEmptyList rest = true := by
        simp [noEmptyList, Bool.and_eq_true] at hne
        exact hne.2
      cases hev : evaluate s env with
      | ok v env1 =>
          simp only [evalStatements, hev]
          exact ih env1 v (fun e he => hP e (List.mem_cons_of_mem _ he)) hner
      | err m => simp [evalStatements, hev, EvalOut.isFatal]
      | fatal m =>
          have := produced_eval_not_fatal (hP s (List.mem_cons_self _ _)) hnes env
          rw [hev] at this
          simp [EvalOut.isFatal] at this

/-- Helper: every expression a parser production of src/parser.rs returns
satisfies the corresponding `Produced` shape (binary-level productions
yield `Produced false`, expression-level ones `Produced true`). -/
theorem parser_productions_sound :
    ∀ fuel : Nat,
      (∀ p e p', Parser.primary fuel p = .ok e p' → Produced false e)
    ∧ (∀ p e p', Parser.grouping fuel p = .ok e p' → Produced false e)
    ∧ (∀ p e p', Parser.factor fuel p = .ok e p' → Produced false e)
    ∧ (∀ left p e p', Parser.termLoop fuel left p = .ok e p' →
         Produced false left → Produced false e)
    ∧ (∀ p e p', Parser.term fuel p = .ok e p' → Produced false e)
    ∧ (∀ left p e p', Parser.binaryLoop fuel left p = .ok e p' →
         Produced false left → Produced false e)
    ∧ (∀ p e p', Parser.binary_expr fuel p = .ok e p' → Produced false e)
    ∧ (∀ p e p', Parser.binding fuel p = .ok e p' → Produced true e)
    ∧ (∀ p e p', Parser.expression fuel p = .ok e p' → Produced true e)
    ∧ (∀ p e p', Parser.statement fuel p = .ok e p' → Produced true e) := by
  intro fuel
  induction fuel with
  | zero =>
      exact ⟨fun _ _ _ h => PRes.noConfusion h, fun _ _ _ h => PRes.noConfusion h,
        fun _ _ _ h => PRes.noConfusion h, fun _ _ _ _ h _ => PRes.noConfusion h,
        fun _ _ _ h => PRes.noConfusion h, fun _ _ _ _ h _ => PRes.noConfusion h,
        fun _ _ _ h => PRes.noConfusion h, fun _ _ _ h => PRes.noConfusion h,
        fun _ _ _ h => PRes.noConfusion h, fun _ _ _ h => PRes.noConfusion h⟩
  | succ fuel ih =>
      obtain ⟨ihPrim, ihGroup, ihFact, ihTermLoop, ihTerm, ihBinLoop, ihBinExpr,
        ihBinding, ihExpr, ihStmt⟩ := ih
      refine ⟨?_, ?_, ?_, ?_, ?_, ?_, ?_, ?_, ?_, ?_⟩
      · -- primary
        intro p e p' h
        simp only [Parser.primary] at h
        rcases hk : p.current_kind with _ | k
        · rw [hk] at h; dsimp only at h; cases h
        · rw [hk] at h
          cases k <;> dsimp only at h <;>
            first
              | exact ihGroup _ _ _ h
              | ((cases h) <;>
                  first
                    | exact Produced.num
                    | exact Produced.var
                    | exact Produced.str)
      · -- grouping
        intro p e p' h
        simp only [Parser.grouping] at h
        rcases he : Parser.expression fuel p.advance with ⟨e1, p1⟩ | ⟨m, p1⟩ | m <;>
          rw [he] at h <;> dsimp only at h
        · rcases hk : p1.current_kind with _ | k
          · rw [hk] at h; dsimp only at h; cases h
          · rw [hk] at h
            cases k <;> dsimp only at h <;>
              ((cases h) <;> exact Produced.group (ihExpr _ _ _ he))
        · cases h
        · cases h
      · -- factor
        intro p e p' h
        simp only [Parser.factor] at h
        exact ihPrim _ _ _ h
      · -- termLoop
        intro left p e p' h hleft
        simp only [Parser.termLoop] at h
        rcases hk : p.current_kind with _ | k
        · rw [hk] at h; dsimp only at h; cases h; exact hleft
        · rw [hk] at h
          cases k <;> dsimp only at h <;>
            first
              | (cases h; exact hleft)
              | (rcases hct : p.currentTok with _ | op <;> rw [hct] at h <;> dsimp only at h
                 · cases h
                 · have hck : p.current_kind = some op.kind := by
                     unfold Parser.current_kind
                     unfold Parser.currentTok at hct
                     rw [hct]
                     rfl
                   rw [hk] at hck
                   injection hck with hkk
                   rcases hfac : Parser.factor fuel p.advance with ⟨e2, p2⟩ | ⟨m2, p2⟩ | m2 <;>
                     rw [hfac] at h <;> dsimp only at h
                   · refine ihTermLoop _ _ _ _ h
                       (Produced.bin hleft (ihFact _ _ _ hfac) ?_)
                     first
                       | exact Or.inl hkk.symm
                       | exact Or.inr (Or.inl hkk.symm)
                       | exact Or.inr (Or.inr (Or.inl hkk.symm))
                       | exact Or.inr (Or.inr (Or.inr hkk.symm))
                   · cases h
                   · cases h)
      · -- term
        intro p e p' h
        simp only [Parser.term] at h
        rcases hfac : Parser.factor fuel p with ⟨e1, p1⟩ | ⟨m, p1⟩ | m <;>
          rw [hfac] at h <;> dsimp only at h
        · exact ihTermLoop _ _ _ _ h (ihFact _ _ _ hfac)
        · cases h
        · cases h
      · -- binaryLoop
        intro left p e p' h hleft
        simp only [Parser.binaryLoop] at h
        rcases hk : p.current_kind with _ | k
        · rw [hk] at h; dsimp only at h; cases h; exact hleft
        · rw [hk] at h
          cases k <;> dsimp only at h <;>
            first
              | (cases h; exact hleft)
              | (rcases hct : p.currentTok with _ | op <;> rw [hct] at h <;> dsimp only at h
                 · cases h
                 · have hck : p.current_kind = some op.kind := by
                     unfold Parser.current_kind
                     unfold Parser.currentTok at hct
                     rw [hct]
                     rfl
                   rw [hk] at hck
                   injection hck with hkk
                   rcases hterm : Parser.term fuel p.advance with ⟨e2, p2⟩ | ⟨m2, p2⟩ | m2 <;>
                     rw [hterm] at h <;> dsimp only at h
                   · refine ihBinLoop _ _ _ _ h
                       (Produced.bin hleft (ihTerm _ _ _ hterm) ?_)
                     first
                       | exact Or.inl hkk.symm
                       | exact Or.inr (Or.inl hkk.symm)
                       | exact Or.inr (Or.inr (Or.inl hkk.symm))
                       | exact Or.inr (Or.inr (Or.inr hkk.symm))
                   · cases h
                   · cases h)
      · -- binary_expr
        intro p e p' h
        simp only [Parser.binary_expr] at h
        rcases hterm : Parser.term fuel p with ⟨e1, p1⟩ | ⟨m, p1⟩ | m <;>
          rw [hterm] at h <;> dsimp only at h
        · exact ihBinLoop _ _ _ _ h (ihTerm _ _ _ hterm)
        · cases h
        · cases h
      · -- binding
        intro p e p' h
        simp only [Parser.binding] at h
        rcases hp : Parser.primary fuel p with ⟨e1, p1⟩ | ⟨m, p1⟩ | m <;>
          rw [hp] at h
        · cases e1 <;> dsimp only at h <;>
            first
              | (cases h)
              | (rcases hk : p1.current_kind with _ | k
                 · rw [hk] at h; dsimp only at h; cases h
                 · rw [hk] at h
                   cases k <;> dsimp only at h <;>
                     first
                       | (cases h)
                       | (rcases he : Parser.expression fuel p1.advance with
                            ⟨e2, p2⟩ | ⟨m2, p2⟩ | m2 <;> rw [he] at h <;> dsimp only at h
                          · cases h; exact Produced.bindE (ihExpr _ _ _ he)
                          · cases h
                          · cases h))
        · cases h
        · cases h
      · -- expression
        intro p e p' h
        simp only [Parser.expression, Parser.empty_expr] at h
        rcases hk : p.current_kind with _ | k
        · rw [hk] at h; dsimp only at h; cases h
        · rw [hk] at h
          cases k <;> dsimp only at h <;>
            first
              | ((cases h) <;> exact Produced.empty)
              | (rcases hl : p.lookahead_kind with _ | k2
                 · rw [hl] at h; dsimp only at h
                   exact Produced.lift (ihBinExpr _ _ _ h)
                 · rw [hl] at h
                   cases k2 <;> dsimp only at h <;>
                     first
                       | exact ihBinding _ _ _ h
                       | exact Produced.lift (ihBinExpr _ _ _ h))
      · -- statement
        intro p e p' h
        simp only [Parser.statement] at h
        rcases he : Parser.expression fuel p with ⟨e1, p1⟩ | ⟨m, p1⟩ | m <;>
          rw [he] at h
        · cases e1 <;> dsimp only at h <;>
            first
              | ((cases h) <;> exact Produced.empty)
              | (rcases hk : p1.current_kind with _ | k
                 · rw [hk] at h; dsimp only at h; cases h
                 · rw [hk] at h
                   cases k <;> dsimp only at h <;>
                     ((cases h) <;> exact ihExpr _ _ _ he))
        · cases h
        · cases h

/-- Helper: every statement the program loop of src/parser.rs collects is
a parser-produced expression, and Empty statements are dropped. -/
theorem programLoop_sound :
    ∀ (fuel : Nat) (p : Parser) (acc : List Expr) (errs : List String)
      (statements : List Expr) (errors : List String) (p' : Parser),
      Parser.programLoop fuel p acc errs = .done statements errors p' →
      (∀ e ∈ acc, Produced true e ∧ e ≠ .Empty) →
      ∀ e ∈ statements, Produced true e ∧ e ≠ .Empty := by
  intro fuel
  induction fuel with
  | zero =>
      intro p acc errs statements errors p' h hacc
      exact ProgRes.noConfusion h
  | succ fuel ih =>
      intro p acc errs statements errors p' h hacc
      simp only [Parser.programLoop] at h
      by_cases hend : p.is_at_end
      · rw [if_pos hend] at h
        cases h
        exact hacc
      · rw [if_neg hend] at h
        rcases hst : Parser.statement fuel p with ⟨e1, p1⟩ | ⟨m, p1⟩ | m <;> rw [hst] at h
        · cases e1 <;> dsimp only at h <;>
            first
              | exact ih _ _ _ _ _ _ h hacc
              | (refine ih _ _ _ _ _ _ h ?_
                 intro e he
                 rcases List.mem_append.mp he with he | he
                 · exact hacc e he
                 · rw [List.mem_singleton] at he
                   subst he
                   exact ⟨(parser_productions_sound fuel).2.2.2.2.2.2.2.2.2 _ _ _ hst,
                     fun hh => Expr.noConfusion hh⟩)
        · dsimp only at h
          exact ih _ _ _ _ _ _ h hacc
        · exact ProgRes.noConfusion h

/-- C10 as amended: every tree a successful parse returns consists of
nodes the evaluator handles — Program, Binary with one of the four
arithmetic operators, Grouping, Binding, Variable, Number/String Literal —
except that Empty CAN occur below the top level (as the right-hand side
of a Binding or the immediate child of a Grouping, the shapes `Produced`
allows, e.g. for `x := ;`), and exactly those Empty nodes can drive
`evaluate` into its unimplemented-node fatal branch: on any successful
parse result containing no Empty node, evaluate never reaches it. -/
theorem parse_success_shape_and_safety :
    ∀ (tokens : List Token) (prog : Expr),
      parse tokens = .ok prog →
      ∃ statements, prog = .Program statements
        ∧ (∀ e ∈ statements, Produced true e ∧ e ≠ .Empty)
        ∧ (noEmptyList statements = true →
            ∀ env : Environment, (evaluate prog env).isFatal = false) := by
  intro tokens prog h
  unfold parse Parser.parse Parser.program at h
  rcases hloop : Parser.programLoop (8 * ((Parser.new tokens).tokens.length + 1))
      (Parser.new tokens) [] [] with ⟨sts, errs, q⟩ | m <;> rw [hloop] at h
  · dsimp only at h
    by_cases herr : errs = []
    · rw [if_pos herr] at h
      cases h
      have hsound := programLoop_sound _ _ _ _ _ _ _ hloop (by simp)
      refine ⟨sts, rfl, hsound, ?_⟩
      intro hne env
      have := evalStatements_not_fatal sts env .Nil (fun e he => (hsound e he).1) hne
      simpa [evaluate] using this
    · rw [if_neg herr] at h
      cases h
  · cases h

/-- Witness for C10 at a concrete input: the tokens of `3;` parse
successfully and the resulting tree is Empty-free, so evaluation cannot
panic on it. -/
theorem parse_success_shape_and_safety_witness :
    ∃ statements, (.Program [.Literal (.Number 3)] : Expr) = .Program statements
      ∧ (∀ e ∈ statements, Produced true e ∧ e ≠ .Empty)
      ∧ (noEmptyList statements = true →
          ∀ env : Environment, (evaluate (.Program [.Literal (.Number 3)]) env).isFatal = false) :=
  parse_success_shape_and_safety
    [⟨.Number 3, "3", 1, 1⟩, ⟨.EndStmt, ";", 1, 2⟩, ⟨.Eof, "", 1, 2⟩]
    (.Program [.Literal (.Number 3)]) (by rfl)

/-- Counterexample for C10 as stated: the token sequence of `x := ;`
parses successfully to a Program whose single statement is a Binding with
an Empty right-hand side — an Empty node below the top level — and
evaluating that parse result reaches the unimplemented-node fatal branch
(`todo!`). -/
theorem parse_success_reaches_fatal :
    scan ("x := ;".toList) = .ok
      [⟨.Identifier "x", "x", 1, 1⟩, ⟨.Binding, ":=", 1, 3⟩,
       ⟨.EndStmt, ";", 1, 5⟩, ⟨.Eof, "", 1, 5⟩]
  ∧ parse
      [⟨.Identifier "x", "x", 1, 1⟩, ⟨.Binding, ":=", 1, 3⟩,
       ⟨.EndStmt, ";", 1, 5⟩, ⟨.Eof, "", 1, 5⟩] =
      .ok (.Program [.Binding "x" .Empty])
  ∧ evaluate (.Program [.Binding "x" .Empty]) Environment.new =
      .fatal "Handle other expressions"
  ∧ (evaluate (.Program [.Binding "x" .Empty]) Environment.new).isFatal = true :=
  ⟨rfl, rfl, rfl, rfl⟩
